import Mathlib

set_option maxHeartbeats 1000000

/-!
Shallow embedding of the two logic units of the `spotify-player` fragment:

* `LineInput` (src/spotify_player/src/ui/single_line_input.rs): a single-line
  text editor holding a `Vec<char>` and a cursor offset, mutated by key events.
* the action-list constructors (src/spotify_player/src/command.rs): pure
  functions building an ordered action menu from an entity and a read-only
  library snapshot.

Rust panics (out-of-bounds `Vec` indexing, `keys[0]` on an empty vector) are
modelled by an outer `Option`: `none` means the call panics. The inner
`Option InputEffect` is the Rust return value `Option<InputEffect>`.
-/

namespace SpotifyPlayer

/-- Crossterm key codes: the four codes the editor interprets, plus a sample
of the remaining codes (they all fall through the wildcard arm of
`LineInput::input`). -/
inductive KeyCode where
  | Char (c : Char)
  | Backspace
  | Left
  | Right
  | Enter
  | Esc
  | Tab
  | Up
  | Down
  | Delete
  | F (n : Nat)
deriving DecidableEq, Repr

/-- Modelled from the spec: `crate::key::Key` (its file is not under src/).
A key event is a key code, bare or combined with a modifier; the spec treats
modified keys as unrecognized input to the editor ("propagate untouched"). -/
inductive Key where
  | None (c : KeyCode)
  | Ctrl (c : KeyCode)
  | Alt (c : KeyCode)
deriving DecidableEq, Repr

/-- Modelled from the spec: `crate::key::KeySequence` (its file is not under
src/), a sequence of already-decoded key events; `LineInput::input` examines
only `keys[0]`. -/
structure KeySequence where
  keys : List Key
deriving DecidableEq, Repr

/-- `InputEffect` from single_line_input.rs. -/
inductive InputEffect where
  | TextChanged
  | CursorMoved
  | Ack
deriving DecidableEq, Repr

/-- `LineInput` from single_line_input.rs: the character sequence and the
cursor offset. -/
structure LineInput where
  line : List Char
  cursor : Nat
deriving DecidableEq, Repr

/-- `LineInput::new`. -/
def LineInput.new (str : List Char) : LineInput :=
  { line := str, cursor := 0 }

/-- `LineInput::default` (`Self::new(Vec::new())`). -/
def LineInput.default : LineInput :=
  LineInput.new []

/-- `LineInput::is_empty`. -/
def LineInput.is_empty (s : LineInput) : Bool :=
  s.line.isEmpty

/-- `LineInput::get_text` (`self.line.iter().collect()`). -/
def LineInput.get_text (s : LineInput) : String :=
  String.mk s.line

/-- `Vec::insert(i, c)`: panics (`none`) when `i > len`. -/
def vecInsert (xs : List Char) (i : Nat) (c : Char) : Option (List Char) :=
  if i ≤ xs.length then some (xs.take i ++ c :: xs.drop i) else Option.none

/-- `Vec::remove(i)`: panics (`none`) when `i ≥ len`. -/
def vecRemove (xs : List Char) (i : Nat) : Option (List Char) :=
  if i < xs.length then some (xs.take i ++ xs.drop (i + 1)) else Option.none

/-- `LineInput::input`. The outer `Option` models a panic: `none` means the
call panics (`keys[0]` of an empty sequence, or an out-of-bounds `Vec`
operation); `some (r, s)` means the call returns the Rust value `r` with
post-state `s`. -/
def LineInput.input (s : LineInput) (ks : KeySequence) :
    Option (Option InputEffect × LineInput) :=
  match ks.keys with
  | [] => Option.none
  | k :: _ =>
    match k with
    | Key.None c =>
      match c with
      | KeyCode.Char c =>
        if s.cursor == s.line.length then
          some (some InputEffect.TextChanged,
            { line := s.line ++ [c], cursor := s.cursor + 1 })
        else
          match vecInsert s.line s.cursor c with
          | some l =>
            some (some InputEffect.TextChanged, { line := l, cursor := s.cursor + 1 })
          | Option.none => Option.none
      | KeyCode.Backspace =>
        if s.line.isEmpty || s.cursor == 0 then
          some (some InputEffect.Ack, s)
        else
          match vecRemove s.line (s.cursor - 1) with
          | some l =>
            some (some InputEffect.TextChanged, { line := l, cursor := s.cursor - 1 })
          | Option.none => Option.none
      | KeyCode.Left =>
        if s.cursor == 0 then
          some (some InputEffect.Ack, s)
        else
          some (some InputEffect.CursorMoved, { s with cursor := s.cursor - 1 })
      | KeyCode.Right =>
        if s.cursor == s.line.length then
          some (some InputEffect.Ack, s)
        else
          some (some InputEffect.CursorMoved, { s with cursor := s.cursor + 1 })
      | _ => some (Option.none, s)
    | _ => some (Option.none, s)

/-- Cursor-bounds invariant `0 ≤ cursor ≤ line.len()`; the lower bound is
inherent to `Nat`. -/
def LineInput.inv (s : LineInput) : Prop :=
  s.cursor ≤ s.line.length

instance (s : LineInput) : Decidable s.inv := by
  unfold LineInput.inv; infer_instance

/-- One `input` call viewed as a state transition; on the panic outcome
(unreachable from states satisfying the invariant) the pre-state is kept. -/
def LineInput.step (s : LineInput) (ks : KeySequence) : LineInput :=
  match s.input ks with
  | some (_, t) => t
  | Option.none => s

/-- Folding `step` over a finite list of key events. -/
def LineInput.run (s : LineInput) (evs : List KeySequence) : LineInput :=
  evs.foldl LineInput.step s

/-- Rust slice `xs[a..b]`; panics (`none`) when `a > b` or `b > len`. -/
def vecSlice (xs : List Char) (a b : Nat) : Option (List Char) :=
  if a ≤ b ∧ b ≤ xs.length then some ((xs.drop a).take (b - a)) else Option.none

/-- Active branch of `LineInput::widget`: the character contents of the three
spans (before-cursor, at-cursor, after-cursor) of the formatted line; the Rust
code collects each of them into a `String`. The outer `Option` models an
indexing panic. -/
def LineInput.widgetSegments (s : LineInput) :
    Option (List Char × List Char × List Char) :=
  match vecSlice s.line 0 s.cursor with
  | Option.none => Option.none
  | some before =>
    let afterOpt : Option (List Char) :=
      if s.cursor == s.line.length then some []
      else vecSlice s.line (s.cursor + 1) s.line.length
    match afterOpt with
    | Option.none => Option.none
    | some after =>
      let curOpt : Option (List Char) :=
        if s.cursor == s.line.length then some [' ']
        else
          match s.line.get? s.cursor with
          | some c => some [c]
          | Option.none => Option.none
      match curOpt with
      | Option.none => Option.none
      | some cur => some (before, cur, after)

/-- `TrackAction` from command.rs. -/
inductive TrackAction where
  | GoToArtist
  | GoToAlbum
  | GoToTrackRadio
  | ShowActionsOnAlbum
  | ShowActionsOnArtist
  | AddToQueue
  | AddToPlaylist
  | DeleteFromCurrentPlaylist
  | AddToLikedTracks
  | DeleteFromLikedTracks
  | CopyTrackLink
deriving DecidableEq, Repr

/-- `AlbumAction` from command.rs. -/
inductive AlbumAction where
  | GoToArtist
  | GoToAlbumRadio
  | ShowActionsOnArtist
  | AddToLibrary
  | DeleteFromLibrary
  | CopyAlbumLink
deriving DecidableEq, Repr

/-- Modelled from the spec: `crate::state::Track` (not under src/), reduced to
its stable identifier, the only part the action constructors consult. -/
structure Track where
  id : Nat
deriving DecidableEq, Repr

/-- Modelled from the spec: `crate::state::Album` (not under src/), reduced to
its stable identifier. -/
structure Album where
  id : Nat
deriving DecidableEq, Repr

/-- Modelled from the spec: the user-library part of `crate::state` (not under
src/): a saved-albums collection with an identifier-membership test, and a
dedicated is-liked predicate for tracks. -/
structure UserData where
  is_liked_track : Track → Bool
  saved_albums : List Album

/-- Modelled from the spec: `crate::state::DataReadGuard` (not under src/),
the read-only library snapshot. -/
structure DataReadGuard where
  user_data : UserData

/-- `construct_track_actions` from command.rs. -/
def construct_track_actions (track : Track) (data : DataReadGuard) :
    List TrackAction :=
  let actions := [TrackAction.GoToArtist, TrackAction.GoToAlbum,
    TrackAction.GoToTrackRadio, TrackAction.ShowActionsOnAlbum,
    TrackAction.ShowActionsOnArtist, TrackAction.CopyTrackLink,
    TrackAction.AddToPlaylist, TrackAction.AddToQueue]
  if data.user_data.is_liked_track track then
    actions ++ [TrackAction.DeleteFromLikedTracks]
  else
    actions ++ [TrackAction.AddToLikedTracks]

/-- `construct_album_actions` from command.rs. -/
def construct_album_actions (album : Album) (data : DataReadGuard) :
    List AlbumAction :=
  let actions := [AlbumAction.GoToArtist, AlbumAction.GoToAlbumRadio,
    AlbumAction.ShowActionsOnArtist, AlbumAction.CopyAlbumLink]
  if data.user_data.saved_albums.any fun a => a.id == album.id then
    actions ++ [AlbumAction.DeleteFromLibrary]
  else
    actions ++ [AlbumAction.AddToLibrary]

/-- The key advanced by the match arms of `LineInput::input`: a bare
(unmodified) `Char`, `Backspace`, `Left` or `Right` key; every other key event
takes a wildcard arm and is returned as not handled. -/
def recognizedKey : Key → Bool
  | Key.None (KeyCode.Char _) => true
  | Key.None KeyCode.Backspace => true
  | Key.None KeyCode.Left => true
  | Key.None KeyCode.Right => true
  | _ => false

/-! ## Helper lemmas -/

theorem input_preserves_inv (s : LineInput) (ks : KeySequence)
    (r : Option InputEffect) (t : LineInput)
    (h : s.inv) (he : s.input ks = some (r, t)) : t.inv := by
  unfold LineInput.inv at h ⊢
  unfold LineInput.input at he
  rcases ks with ⟨keys⟩
  rcases keys with _ | ⟨k, rest⟩
  · simp at he
  rcases k with c | c | c
  case Ctrl =>
    simp at he
    rcases he with ⟨rfl, rfl⟩
    exact h
  case Alt =>
    simp at he
    rcases he with ⟨rfl, rfl⟩
    exact h
  case None =>
    cases c
    case Char ch =>
      by_cases hc : s.cursor = s.line.length
      · simp [hc] at he
        rcases he with ⟨rfl, rfl⟩
        simp
      · simp [hc, vecInsert, h] at he
        rcases he with ⟨rfl, rfl⟩
        simp [List.length_take, List.length_drop]
        omega
    case Backspace =>
      by_cases h0 : s.line.isEmpty || s.cursor == 0
      · simp only [h0, if_pos] at he
        simp at he
        rcases he with ⟨rfl, rfl⟩
        exact h
      · have hc : s.cursor ≠ 0 := by
          simp only [Bool.or_eq_true, beq_iff_eq, List.isEmpty_iff] at h0
          push_neg at h0
          exact h0.2
        have hr : s.cursor - 1 < s.line.length := by omega
        simp [h0, vecRemove, hr] at he
        rcases he with ⟨rfl, rfl⟩
        simp [List.length_take, List.length_drop]
        omega
    case Left =>
      by_cases h0 : s.cursor = 0
      · simp [h0] at he
        rcases he with ⟨rfl, rfl⟩
        exact h
      · simp [h0] at he
        rcases he with ⟨rfl, rfl⟩
        simp
        omega
    case Right =>
      by_cases h0 : s.cursor = s.line.length
      · simp [h0] at he
        rcases he with ⟨rfl, rfl⟩
        exact h
      · simp [h0] at he
        rcases he with ⟨rfl, rfl⟩
        simp
        omega
    all_goals
      simp at he
      rcases he with ⟨rfl, rfl⟩
      exact h

theorem step_preserves_inv (s : LineInput) (ks : KeySequence) (h : s.inv) :
    (s.step ks).inv := by
  unfold LineInput.step
  rcases he : s.input ks with _ | ⟨r, t⟩
  · exact h
  · exact input_preserves_inv s ks r t h he

theorem run_preserves_inv (evs : List KeySequence) (s : LineInput) (h : s.inv) :
    (s.run evs).inv := by
  induction evs generalizing s with
  | nil => exact h
  | cons ks evs ih => exact ih _ (step_preserves_inv s ks h)

theorem input_unrecognized (s : LineInput) (k : Key) (rest : List Key)
    (hk : recognizedKey k = false) :
    s.input ⟨k :: rest⟩ = some (Option.none, s) := by
  rcases k with c | c | c
  case Ctrl => rfl
  case Alt => rfl
  case None =>
    cases c <;> first
      | rfl
      | exact absurd hk (by simp [recognizedKey])

theorem input_recognized_effect (s : LineInput) (k : Key) (rest : List Key)
    (hinv : s.cursor ≤ s.line.length) (hk : recognizedKey k = true) :
    ∃ e t, s.input ⟨k :: rest⟩ = some (some e, t) := by
  rcases k with c | c | c
  case Ctrl => simp [recognizedKey] at hk
  case Alt => simp [recognizedKey] at hk
  case None =>
    cases c
    case Char ch =>
      by_cases hc : s.cursor = s.line.length
      · have he : s.input ⟨Key.None (KeyCode.Char ch) :: rest⟩ =
            some (some InputEffect.TextChanged,
              ⟨s.line ++ [ch], s.cursor + 1⟩) := by
          simp [LineInput.input, hc]
        exact ⟨_, _, he⟩
      · have he : s.input ⟨Key.None (KeyCode.Char ch) :: rest⟩ =
            some (some InputEffect.TextChanged,
              ⟨s.line.take s.cursor ++ ch :: s.line.drop s.cursor,
               s.cursor + 1⟩) := by
          simp [LineInput.input, hc, vecInsert, hinv]
        exact ⟨_, _, he⟩
    case Backspace =>
      by_cases h0 : (s.line.isEmpty || s.cursor == 0) = true
      · have he : s.input ⟨Key.None KeyCode.Backspace :: rest⟩ =
            some (some InputEffect.Ack, s) := by
          simp [LineInput.input, h0]
        exact ⟨_, _, he⟩
      · have hc : s.cursor ≠ 0 := by
          simp only [Bool.or_eq_true, beq_iff_eq, List.isEmpty_iff] at h0
          push_neg at h0
          exact h0.2
        have hr : s.cursor - 1 < s.line.length := by omega
        have he : s.input ⟨Key.None KeyCode.Backspace :: rest⟩ =
            some (some InputEffect.TextChanged,
              ⟨s.line.take (s.cursor - 1) ++ s.line.drop (s.cursor - 1 + 1),
               s.cursor - 1⟩) := by
          simp [LineInput.input, h0, vecRemove, hr]
        exact ⟨_, _, he⟩
    case Left =>
      by_cases h0 : s.cursor = 0
      · have he : s.input ⟨Key.None KeyCode.Left :: rest⟩ =
            some (some InputEffect.Ack, s) := by
          simp [LineInput.input, h0]
        exact ⟨_, _, he⟩
      · have he : s.input ⟨Key.None KeyCode.Left :: rest⟩ =
            some (some InputEffect.CursorMoved,
              ⟨s.line, s.cursor - 1⟩) := by
          simp [LineInput.input, h0]
        exact ⟨_, _, he⟩
    case Right =>
      by_cases h0 : s.cursor = s.line.length
      · have he : s.input ⟨Key.None KeyCode.Right :: rest⟩ =
            some (some InputEffect.Ack, s) := by
          simp [LineInput.input, h0]
        exact ⟨_, _, he⟩
      · have he : s.input ⟨Key.None KeyCode.Right :: rest⟩ =
            some (some InputEffect.CursorMoved,
              ⟨s.line, s.cursor + 1⟩) := by
          simp [LineInput.input, h0]
        exact ⟨_, _, he⟩
    all_goals simp [recognizedKey] at hk

theorem input_total (s : LineInput) (k : Key) (rest : List Key)
    (hinv : s.cursor ≤ s.line.length) :
    ∃ r t, s.input ⟨k :: rest⟩ = some (r, t) := by
  by_cases hk : recognizedKey k = true
  · obtain ⟨e, t, he⟩ := input_recognized_effect s k rest hinv hk
    exact ⟨some e, t, he⟩
  · exact ⟨Option.none, s, input_unrecognized s k rest (by simpa using hk)⟩

/-! ## Claims -/

/-- C1: for every initial buffer contents and every finite sequence of key
events, after each call to `LineInput::input` the cursor satisfies
`0 ≤ cursor ≤ line.len()`: the invariant holds in every state reachable from
construction (quantifying over all event lists covers every prefix, i.e.
the state after each call). -/
theorem cursor_bounds_invariant (init : List Char) (evs : List KeySequence) :
    ((LineInput.new init).run evs).inv := by
  exact run_preserves_inv evs (LineInput.new init) (Nat.zero_le _)

/-- C2: on a buffer with `cursor > 0` and a non-empty line (under the cursor
invariant), a Backspace event decrements the cursor by 1, removes exactly the
character at position `cursor - 1` leaving all others in order, and returns
`TextChanged`. -/
theorem backspace_removes_left_char (s : LineInput) (rest : List Key)
    (hc : 0 < s.cursor) (hinv : s.cursor ≤ s.line.length) (hne : s.line ≠ []) :
    s.input ⟨Key.None KeyCode.Backspace :: rest⟩ =
      some (some InputEffect.TextChanged,
        { line := s.line.take (s.cursor - 1) ++ s.line.drop s.cursor,
          cursor := s.cursor - 1 }) := by
  have h0 : (s.line.isEmpty || s.cursor == 0) = false := by
    simp [List.isEmpty_iff, hne]
    omega
  have hr : s.cursor - 1 < s.line.length := by omega
  have hs : s.cursor - 1 + 1 = s.cursor := by omega
  simp [LineInput.input, h0, vecRemove, hr, hs]

/-- C2 witness: from line `"abc"` with cursor 2, Backspace yields text `"ac"`
with cursor 1 (removing `'b'`, the character left of the original cursor). -/
theorem backspace_removes_left_char_witness :
    LineInput.input ⟨['a', 'b', 'c'], 2⟩ ⟨[Key.None KeyCode.Backspace]⟩ =
      some (some InputEffect.TextChanged, ⟨['a', 'c'], 1⟩) := by
  have h := backspace_removes_left_char ⟨['a', 'b', 'c'], 2⟩ []
    (by decide) (by decide) (by decide)
  simpa using h

/-- C3: a character event inserts `c` at the cursor (appending when
`cursor == line.len()`), increments the cursor and returns `TextChanged`;
consequently typing `'a'`, `'b'`, `'c'` into an empty buffer yields `"abc"`
with cursor 3, and inserting `'b'` into `"ac"` at cursor 1 yields `"abc"`
with cursor 2. -/
theorem char_insertion_spec :
    (∀ (s : LineInput) (c : Char) (rest : List Key), s.cursor ≤ s.line.length →
      s.input ⟨Key.None (KeyCode.Char c) :: rest⟩ =
        some (some InputEffect.TextChanged,
          { line := s.line.take s.cursor ++ c :: s.line.drop s.cursor,
            cursor := s.cursor + 1 })) ∧
    ((LineInput.new []).run
        [⟨[Key.None (KeyCode.Char 'a')]⟩, ⟨[Key.None (KeyCode.Char 'b')]⟩,
         ⟨[Key.None (KeyCode.Char 'c')]⟩]).get_text = "abc" ∧
    ((LineInput.new []).run
        [⟨[Key.None (KeyCode.Char 'a')]⟩, ⟨[Key.None (KeyCode.Char 'b')]⟩,
         ⟨[Key.None (KeyCode.Char 'c')]⟩]).cursor = 3 ∧
    LineInput.input ⟨['a', 'c'], 1⟩ ⟨[Key.None (KeyCode.Char 'b')]⟩ =
      some (some InputEffect.TextChanged, ⟨['a', 'b', 'c'], 2⟩) := by
  refine ⟨?_, by decide, by decide, by decide⟩
  intro s c rest h
  by_cases hc : s.cursor = s.line.length
  · simp [LineInput.input, hc]
  · simp [LineInput.input, hc, vecInsert, h]

/-- C3 witness: inserting `'x'` into the empty buffer appends it and moves the
cursor to 1. -/
theorem char_insertion_spec_witness :
    LineInput.input (LineInput.new []) ⟨[Key.None (KeyCode.Char 'x')]⟩ =
      some (some InputEffect.TextChanged, ⟨['x'], 1⟩) := by
  have h := char_insertion_spec.1 (LineInput.new []) 'x' [] (by decide)
  simpa using h

/-- C5: Backspace on an empty line or at cursor 0, move-left at cursor 0 and
move-right at the end each return `Some(Ack)` with the state unchanged, and
repeating Backspace on an empty buffer any number of times leaves it
identical to the initial state. -/
theorem ack_noop_idempotent :
    (∀ (s : LineInput) (rest : List Key),
      s.line.isEmpty = true ∨ s.cursor = 0 →
      s.input ⟨Key.None KeyCode.Backspace :: rest⟩ =
        some (some InputEffect.Ack, s)) ∧
    (∀ (s : LineInput) (rest : List Key), s.cursor = 0 →
      s.input ⟨Key.None KeyCode.Left :: rest⟩ =
        some (some InputEffect.Ack, s)) ∧
    (∀ (s : LineInput) (rest : List Key), s.cursor = s.line.length →
      s.input ⟨Key.None KeyCode.Right :: rest⟩ =
        some (some InputEffect.Ack, s)) ∧
    (∀ n : Nat,
      (LineInput.new []).run
          (List.replicate n ⟨[Key.None KeyCode.Backspace]⟩) =
        LineInput.new []) := by
  refine ⟨?_, ?_, ?_, ?_⟩
  · intro s rest h
    have h0 : (s.line.isEmpty || s.cursor == 0) = true := by
      rcases h with h | h <;> simp [h]
    simp [LineInput.input, h0]
  · intro s rest h
    simp [LineInput.input, h]
  · intro s rest h
    simp [LineInput.input, h]
  · intro n
    induction n with
    | zero => rfl
    | succ n ih =>
      have hs : (LineInput.new []).step ⟨[Key.None KeyCode.Backspace]⟩ =
          LineInput.new [] := rfl
      simp only [List.replicate_succ, LineInput.run, List.foldl_cons, hs]
      exact ih

/-- C5 witness: Backspace on the empty buffer acknowledges and changes
nothing; ten repeated Backspace events leave the empty buffer intact. -/
theorem ack_noop_idempotent_witness :
    LineInput.input (LineInput.new []) ⟨[Key.None KeyCode.Backspace]⟩ =
      some (some InputEffect.Ack, LineInput.new []) ∧
    (LineInput.new []).run
        (List.replicate 10 ⟨[Key.None KeyCode.Backspace]⟩) =
      LineInput.new [] :=
  ⟨ack_noop_idempotent.1 (LineInput.new []) [] (Or.inl (by decide)),
   ack_noop_idempotent.2.2.2 10⟩

/-- C6: `input` returns Rust `None` exactly on key events outside the
recognized set (bare character, Backspace, Left, Right); whenever it does,
the buffer is unchanged, and recognized keys never return `None`. -/
theorem unhandled_key_propagation (s : LineInput) (k : Key) (rest : List Key)
    (hinv : s.cursor ≤ s.line.length) :
    (recognizedKey k = false →
      s.input ⟨k :: rest⟩ = some (Option.none, s)) ∧
    (recognizedKey k = true →
      ∃ e t, s.input ⟨k :: rest⟩ = some (some e, t)) :=
  ⟨fun hk => input_unrecognized s k rest hk,
   fun hk => input_recognized_effect s k rest hinv hk⟩

/-- C6 witness: a function key F1 yields `None` with the buffer `"ab"`
(cursor 1) unchanged, while the recognized Left key yields an effect. -/
theorem unhandled_key_propagation_witness :
    LineInput.input ⟨['a', 'b'], 1⟩ ⟨[Key.None (KeyCode.F 1)]⟩ =
      some (Option.none, ⟨['a', 'b'], 1⟩) ∧
    ∃ e t, LineInput.input ⟨['a', 'b'], 1⟩ ⟨[Key.None KeyCode.Left]⟩ =
      some (some e, t) :=
  ⟨(unhandled_key_propagation ⟨['a', 'b'], 1⟩ (Key.None (KeyCode.F 1)) []
      (by decide)).1 (by decide),
   (unhandled_key_propagation ⟨['a', 'b'], 1⟩ (Key.None KeyCode.Left) []
      (by decide)).2 (by decide)⟩

/-- C7: on a buffer satisfying the cursor invariant, `input` never panics for
any key event (non-empty key sequence): the first-key access and the `Vec`
insert/remove indexing all stay in bounds, so the call always returns. -/
theorem input_no_panic (s : LineInput) (ks : KeySequence)
    (hinv : s.inv) (hne : ks.keys ≠ []) :
    (s.input ks).isSome = true := by
  rcases ks with ⟨keys⟩
  rcases keys with _ | ⟨k, rest⟩
  · exact absurd rfl hne
  · obtain ⟨r, t, he⟩ := input_total s k rest hinv
    simp [he]

/-- C7 witness: `input` returns on the buffer `"ab"` (cursor 2) for a
Backspace event. -/
theorem input_no_panic_witness :
    (LineInput.input ⟨['a', 'b'], 2⟩
      ⟨[Key.None KeyCode.Backspace]⟩).isSome = true :=
  input_no_panic ⟨['a', 'b'], 2⟩ ⟨[Key.None KeyCode.Backspace]⟩
    (by decide) (by decide)

/-- C10: under the invariant, move-left then move-right (from `cursor > 0`)
restores the exact original state with both calls returning `CursorMoved`;
symmetrically move-right then move-left from `cursor < line.len()`; and
neither movement key ever modifies the character sequence. -/
theorem cursor_move_round_trip :
    (∀ (s : LineInput) (r1 r2 : List Key),
      0 < s.cursor → s.cursor ≤ s.line.length →
      s.input ⟨Key.None KeyCode.Left :: r1⟩ =
        some (some InputEffect.CursorMoved, ⟨s.line, s.cursor - 1⟩) ∧
      LineInput.input ⟨s.line, s.cursor - 1⟩ ⟨Key.None KeyCode.Right :: r2⟩ =
        some (some InputEffect.CursorMoved, s)) ∧
    (∀ (s : LineInput) (r1 r2 : List Key), s.cursor < s.line.length →
      s.input ⟨Key.None KeyCode.Right :: r1⟩ =
        some (some InputEffect.CursorMoved, ⟨s.line, s.cursor + 1⟩) ∧
      LineInput.input ⟨s.line, s.cursor + 1⟩ ⟨Key.None KeyCode.Left :: r2⟩ =
        some (some InputEffect.CursorMoved, s)) ∧
    (∀ (s t : LineInput) (c : KeyCode) (rest : List Key)
      (e : Option InputEffect),
      c = KeyCode.Left ∨ c = KeyCode.Right →
      s.input ⟨Key.None c :: rest⟩ = some (e, t) → t.line = s.line) := by
  refine ⟨?_, ?_, ?_⟩
  · intro s r1 r2 h0 hinv
    have h1 : s.cursor ≠ 0 := by omega
    have h2 : s.cursor - 1 ≠ s.line.length := by omega
    have h3 : s.cursor - 1 + 1 = s.cursor := by omega
    constructor
    · simp [LineInput.input, h1]
    · simp [LineInput.input, h2, h3]
  · intro s r1 r2 hlt
    have h1 : s.cursor ≠ s.line.length := by omega
    constructor
    · simp [LineInput.input, h1]
    · simp [LineInput.input]
  · intro s t c rest e hc he
    rcases hc with rfl | rfl
    · by_cases h0 : s.cursor = 0
      · simp [LineInput.input, h0] at he
        rcases he with ⟨rfl, rfl⟩
        rfl
      · simp [LineInput.input, h0] at he
        rcases he with ⟨rfl, rfl⟩
        rfl
    · by_cases h0 : s.cursor = s.line.length
      · simp [LineInput.input, h0] at he
        rcases he with ⟨rfl, rfl⟩
        rfl
      · simp [LineInput.input, h0] at he
        rcases he with ⟨rfl, rfl⟩
        rfl

/-- C10 witness: on the buffer `"ab"` with cursor 1, Left then Right returns
to the original state, both reporting `CursorMoved`. -/
theorem cursor_move_round_trip_witness :
    LineInput.input ⟨['a', 'b'], 1⟩ ⟨[Key.None KeyCode.Left]⟩ =
      some (some InputEffect.CursorMoved, ⟨['a', 'b'], 0⟩) ∧
    LineInput.input ⟨['a', 'b'], 0⟩ ⟨[Key.None KeyCode.Right]⟩ =
      some (some InputEffect.CursorMoved, ⟨['a', 'b'], 1⟩) := by
  have h := cursor_move_round_trip.1 ⟨['a', 'b'], 1⟩ [] []
    (by decide) (by decide)
  simpa using h

/-- C8: `LineInput::new` yields the given character sequence with cursor 0
for every initial sequence, and `default` is the empty line with cursor 0. -/
theorem construction_cursor_zero :
    (∀ init : List Char,
      (LineInput.new init).line = init ∧ (LineInput.new init).cursor = 0) ∧
    LineInput.default = LineInput.new [] ∧
    LineInput.default.line = [] ∧ LineInput.default.cursor = 0 :=
  ⟨fun _ => ⟨rfl, rfl⟩, rfl, rfl, rfl⟩

/-- C4: each constructed action list is exactly the entity kind's fixed base
list in its fixed order followed by exactly one toggle action selected by
membership (is-liked predicate for tracks, saved-albums id membership for
albums); `DeleteFromCurrentPlaylist` never appears, and the lengths are fixed
(9 for tracks, 5 for albums). -/
theorem action_catalog_shape :
    (∀ (t : Track) (d : DataReadGuard),
      construct_track_actions t d =
        [TrackAction.GoToArtist, TrackAction.GoToAlbum,
         TrackAction.GoToTrackRadio, TrackAction.ShowActionsOnAlbum,
         TrackAction.ShowActionsOnArtist, TrackAction.CopyTrackLink,
         TrackAction.AddToPlaylist, TrackAction.AddToQueue] ++
        [if d.user_data.is_liked_track t then TrackAction.DeleteFromLikedTracks
         else TrackAction.AddToLikedTracks]) ∧
    (∀ (a : Album) (d : DataReadGuard),
      construct_album_actions a d =
        [AlbumAction.GoToArtist, AlbumAction.GoToAlbumRadio,
         AlbumAction.ShowActionsOnArtist, AlbumAction.CopyAlbumLink] ++
        [if d.user_data.saved_albums.any fun x => x.id == a.id then
           AlbumAction.DeleteFromLibrary
         else AlbumAction.AddToLibrary]) ∧
    (∀ (t : Track) (d : DataReadGuard),
      TrackAction.DeleteFromCurrentPlaylist ∉ construct_track_actions t d) ∧
    (∀ (t : Track) (d : DataReadGuard),
      (construct_track_actions t d).length = 9) ∧
    (∀ (a : Album) (d : DataReadGuard),
      (construct_album_actions a d).length = 5) := by
  refine ⟨?_, ?_, ?_, ?_, ?_⟩
  · intro t d
    by_cases h : d.user_data.is_liked_track t = true <;>
      simp [construct_track_actions, h]
  · intro a d
    by_cases h : (d.user_data.saved_albums.any fun x => x.id == a.id) = true <;>
      simp [construct_album_actions, h]
  · intro t d
    by_cases h : d.user_data.is_liked_track t = true <;>
      simp [construct_track_actions, h]
  · intro t d
    by_cases h : d.user_data.is_liked_track t = true <;>
      simp [construct_track_actions, h]
  · intro a d
    by_cases h : (d.user_data.saved_albums.any fun x => x.id == a.id) = true <;>
      simp [construct_album_actions, h]

/-- C9 counterexample: in the state produced by `LineInput::new(vec![])`
(where `cursor == line.len()`), the at-cursor segment the active widget
renders is the single-space string `" "` — one character — not an empty
placeholder. -/
theorem widget_placeholder_not_empty :
    (LineInput.new []).cursor = (LineInput.new []).line.length ∧
    (LineInput.new []).widgetSegments = some ([], [' '], []) ∧
    ([' '] : List Char).length ≠ 0 := by
  refine ⟨rfl, by decide, by decide⟩

/-- C9 (amended): under the invariant, the at-cursor segment is exactly the
one character at position `cursor` when `cursor < line.len()` and the fixed
single-space placeholder (no character of the text) when
`cursor == line.len()`; before-cursor, at-cursor and after-cursor segments
concatenate to `get_text()` when `cursor < line.len()`. -/
theorem widget_segments_spec (s : LineInput)
    (hinv : s.cursor ≤ s.line.length) :
    (s.cursor = s.line.length →
      s.widgetSegments = some (s.line, [' '], [])) ∧
    (s.cursor < s.line.length →
      ∃ ch, s.line.get? s.cursor = some ch ∧
        s.widgetSegments =
          some (s.line.take s.cursor, [ch], s.line.drop (s.cursor + 1)) ∧
        String.mk (s.line.take s.cursor ++ [ch] ++ s.line.drop (s.cursor + 1)) =
          s.get_text) := by
  constructor
  · intro hc
    simp [LineInput.widgetSegments, vecSlice, hc]
  · intro hlt
    have hch0 : s.line.get? s.cursor = some (s.line[s.cursor]) := by
      rw [List.get?_eq_getElem?, List.getElem?_eq_getElem hlt]
    obtain ⟨ch, hch⟩ : ∃ ch, s.line.get? s.cursor = some ch := ⟨_, hch0⟩
    have hne : s.cursor ≠ s.line.length := by omega
    have hdrop : (s.line.drop (s.cursor + 1)).take
        (s.line.length - (s.cursor + 1)) = s.line.drop (s.cursor + 1) := by
      rw [← List.length_drop]
      exact List.take_length _
    have hcv : s.line[s.cursor] = ch := by
      rw [hch0] at hch
      exact Option.some.inj hch
    have h1 : s.cursor + 1 ≤ s.line.length := hlt
    refine ⟨ch, hch, ?_, ?_⟩
    · simp [LineInput.widgetSegments, vecSlice, hne, hinv, hlt, hch, hdrop,
        hcv, h1]
    · have : s.line.take s.cursor ++ [ch] ++ s.line.drop (s.cursor + 1) =
          s.line := by
        have hd : s.line.drop s.cursor = ch :: s.line.drop (s.cursor + 1) := by
          rw [List.drop_eq_getElem_cons hlt]
          have : s.line[s.cursor] = ch := by
            have := List.get?_eq_getElem? s.line s.cursor
            rw [this, List.getElem?_eq_getElem hlt] at hch
            exact Option.some.inj hch
          rw [this]
        calc s.line.take s.cursor ++ [ch] ++ s.line.drop (s.cursor + 1)
            = s.line.take s.cursor ++ (ch :: s.line.drop (s.cursor + 1)) := by
              simp
          _ = s.line.take s.cursor ++ s.line.drop s.cursor := by rw [hd]
          _ = s.line := List.take_append_drop _ _
      rw [this]
      rfl

/-- C9 witness (amended theorem): on the buffer `"abc"` with cursor 1 the
segments are `"a"`, `"b"`, `"c"`, concatenating back to the text. -/
theorem widget_segments_spec_witness :
    LineInput.widgetSegments ⟨['a', 'b', 'c'], 1⟩ =
      some (['a'], ['b'], ['c']) := by
  obtain ⟨ch, hch, hseg, _⟩ :=
    (widget_segments_spec ⟨['a', 'b', 'c'], 1⟩ (by decide)).2 (by decide)
  have hb : 'b' = ch := by
    simpa using hch
  subst hb
  simpa using hseg

end SpotifyPlayer
